import Mathlib

/-!
Verification development for the CSV email processing pipeline
(`csv_email_processor.py`, mirrored by `csv_email_processor_gui.py`).

The source is embedded shallowly:
* pandas cell values become `Value` (a string cell, or a non-string cell such
  as a `NaN` produced for an empty field);
* a data frame becomes a `Table`: its column names plus the ordered list of
  rows, each row keeping the two semantically significant fields;
* the regular expressions of the source are embedded as executable matchers
  over `List Char`, faithful to Python `re` semantics for these patterns:
  `re.match` anchors at the start, and the final `$` of the pattern matches
  at the end of the string or just before a single trailing newline;
  `re.search` scans for the leftmost match and resolves each quantifier
  greedily with backtracking;
* file reads that can fail are passed in as `Except Unit` values, and the
  message boxes shown to the user become `Notice` values;
* Python `str.lower` / `str.strip` and the `\w` character class are embedded
  at their ASCII meaning (all data reached by the claims is ASCII).
-/

set_option linter.unusedVariables false

namespace CsvEmail

/-- A cell value of the loaded table: either a string, or a non-string cell
(for example the float `NaN` that pandas substitutes for an empty field). -/
inductive Value where
  | str (s : String)
  | nonStr
deriving DecidableEq

/-- One row of the table, keeping the two semantically significant fields
`Email Address [Required]` and `Last Sign In [READ ONLY]`. -/
structure Row where
  email : Value
  lastSignIn : Value
deriving DecidableEq

/-- The loaded data frame: its column names and its ordered rows. -/
structure Table where
  columns : List String
  rows : List Row
deriving DecidableEq

/-! ### Character classes of the source regular expressions -/

/-- The class `[a-zA-Z0-9._%+-]` of the local part of the email pattern. -/
def isLocalChar (c : Char) : Bool :=
  c.isAlpha || c.isDigit || c = '.' || c = '_' || c = '%' || c = '+' || c = '-'

/-- The class `[a-zA-Z0-9.-]` of the domain part of the email pattern. -/
def isDomainChar (c : Char) : Bool :=
  c.isAlpha || c.isDigit || c = '.' || c = '-'

/-- The class `[a-zA-Z]` of the top-level-domain part of the email pattern. -/
def isTldChar (c : Char) : Bool :=
  c.isAlpha

/-- The class `\w` of `re.sub(r'[^\w.-]', '', domain)`, at its ASCII meaning. -/
def isWordChar (c : Char) : Bool :=
  c.isAlpha || c.isDigit || c = '_'

/-- The complement of the class `[^\w.-]`: the characters that
`re.sub(r'[^\w.-]', '', domain)` keeps. -/
def isKeptChar (c : Char) : Bool :=
  isWordChar c || c = '.' || c = '-'

/-- ASCII lower-casing of a character list, embedding Python `str.lower`
on the ASCII data the claims are about. -/
def lowerChars (cs : List Char) : List Char :=
  cs.map Char.toLower

/-- Lower-casing of a string, embedding Python `str.lower`. -/
def lowerString (s : String) : String :=
  String.mk (lowerChars s.data)

/-- Embedding of Python `str.strip`: drop whitespace from both ends. -/
def stripChars (cs : List Char) : List Char :=
  ((cs.dropWhile Char.isWhitespace).reverse.dropWhile Char.isWhitespace).reverse

/-! ### The email pattern `[a-zA-Z0-9._%+-]+@[a-zA-Z0-9.-]+\.[a-zA-Z]{2,}`

`tryDots` resolves the backtracking of `[a-zA-Z0-9.-]+\.[a-zA-Z]{2,}` over a
maximal run `drun` of domain characters: the engine places the literal dot at
the rightmost viable position (the `+` is greedy), and then `[a-zA-Z]{2,}`
greedily takes the maximal alphabetic run after it, which must have length at
least two. -/

/-- Try dot positions `n, n-1, ..., 1` inside the domain-character run. -/
def tryDots (drun : List Char) : Nat → Option (List Char)
  | 0 => none
  | i + 1 =>
    if drun.getD (i + 1) '@' = '.' then
      if 2 ≤ ((drun.drop (i + 2)).takeWhile isTldChar).length then
        some (drun.take (i + 1) ++ '.' :: (drun.drop (i + 2)).takeWhile isTldChar)
      else tryDots drun i
    else tryDots drun i

/-- Greedy match of `[a-zA-Z0-9.-]+\.[a-zA-Z]{2,}` at the start of `cs`,
returning the matched characters. -/
def matchDomainTail (cs : List Char) : Option (List Char) :=
  tryDots (cs.takeWhile isDomainChar) ((cs.takeWhile isDomainChar).length - 1)

/-- Greedy match of the whole email pattern at the start of `cs`, returning
the matched characters.  The local part `[a-zA-Z0-9._%+-]+` is the maximal
run of local characters (the following `@` is not a local character, so the
engine cannot usefully backtrack into it). -/
def findMatchAt (cs : List Char) : Option (List Char) :=
  match cs.dropWhile isLocalChar with
  | '@' :: rest =>
    if (cs.takeWhile isLocalChar).isEmpty then none
    else (matchDomainTail rest).map (fun dm => cs.takeWhile isLocalChar ++ '@' :: dm)
  | _ => none

/-- Embedding of `re.search(pattern, line)`: scan the positions left to
right and return the first (leftmost) match. -/
def searchEmail : List Char → Option (List Char)
  | [] => none
  | c :: cs =>
    match findMatchAt (c :: cs) with
    | some m => some m
    | none => searchEmail cs

/-- The anchored pattern `^...$` consumes all of `cs`: the greedy match at
position zero exists and equals the whole input. -/
def matchesEmailCore (cs : List Char) : Bool :=
  match cs.dropWhile isLocalChar with
  | '@' :: rest =>
    !(cs.takeWhile isLocalChar).isEmpty && (matchDomainTail rest == some rest)
  | _ => false

/-- Embedding of `re.match(r'^...$', s) is not None`: in Python the `$`
matches at the end of the string or just before one trailing newline. -/
def matchesPythonAnchored (cs : List Char) : Bool :=
  matchesEmailCore cs || (cs.getLast? == some '\n' && matchesEmailCore cs.dropLast)

/-- Embedding of `validate_email` (`csv_email_processor.py:77`): non-strings
are rejected, strings are matched against the anchored pattern. -/
def validate_email (v : Value) : Bool :=
  match v with
  | .str s => matchesPythonAnchored s.data
  | .nonStr => false

/-- Modelled from the spec: the anchored email pattern
`^[A-Za-z0-9._%+-]+@[A-Za-z0-9.-]+\.[A-Za-z]{2,}$` applied to the full field
value, anchored at both ends (the pattern must consume every character of the
value, with no trailing-newline allowance). -/
def specFullAnchoredMatch (s : String) : Bool :=
  matchesEmailCore s.data

/-- Embedding of `extract_domain` (`csv_email_processor.py:87`):
`email.split('@')[1]` is the segment between the first and second `@`, and
`re.sub(r'[^\w.-]', '', domain)` keeps exactly the `isKeptChar` characters.
On a non-string the `'@' in email` test raises and the handler yields
`"unknown"`. -/
def extract_domain (v : Value) : String :=
  match v with
  | .str s =>
    if '@' ∈ s.data then
      String.mk ((((s.data.dropWhile (fun c => c != '@')).tail).takeWhile
        (fun c => c != '@')).filter isKeptChar)
    else "unknown"
  | .nonStr => "unknown"

/-- Modelled from the spec: the domain of an email is the substring after the
first `@`, with every character outside `[A-Za-z0-9._-]` stripped. -/
def specDomainAfterFirstAt (s : String) : String :=
  String.mk (((s.data.dropWhile (fun c => c != '@')).tail).filter isKeptChar)

/-! ### Exclusion list loading (`load_exclusion_emails`) -/

/-- Contribution of a single line of the exclusion file
(`csv_email_processor.py:107-115`): strip the line; skip it when empty;
otherwise add the first embedded email found by `re.search`, lower-cased;
otherwise, when the whole line passes `validate_email`, add the line
lower-cased. -/
def lineEmail (raw : String) : Option String :=
  let line := stripChars raw.data
  if line.isEmpty then none
  else
    match searchEmail line with
    | some m => some (String.mk (lowerChars m))
    | none =>
      if matchesPythonAnchored line then some (String.mk (lowerChars line))
      else none

/-- Embedding of `load_exclusion_emails` on the lines of a readable file:
fold the lines into a set of lower-cased emails. -/
def load_exclusion_emails (lines : List String) : Finset String :=
  lines.foldl
    (fun acc l =>
      match lineEmail l with
      | some e => insert e acc
      | none => acc)
    ∅

/-- Embedding of `load_exclusion_emails` on a file read that may fail: the
`except` branch (`csv_email_processor.py:120-122`) logs the failure and
returns the empty set. -/
def load_exclusion_file : Except Unit (List String) → Finset String
  | .ok lines => load_exclusion_emails lines
  | .error _ => ∅

/-! ### The row pipeline (`process_csv`) -/

/-- The two mandatory columns (`csv_email_processor.py:64-67`). -/
def requiredColumns : List String :=
  ["Email Address [Required]", "Last Sign In [READ ONLY]"]

/-- The missing mandatory columns of a table (`csv_email_processor.py:69`). -/
def missingColumns (t : Table) : List String :=
  requiredColumns.filter (fun c => !(t.columns.contains c))

/-- Embedding of `validate_csv_format`: the check succeeds iff no mandatory
column is missing (otherwise the source raises `ValueError`). -/
def validate_csv_format (t : Table) : Bool :=
  (missingColumns t).isEmpty

/-- Phase-1 predicate (`csv_email_processor.py:139`): keep a row iff its
`Last Sign In [READ ONLY]` cell is not the string `"Never logged in"`; a
non-string cell (pandas `NaN`) compares unequal and is kept. -/
def keepLoginRow (r : Row) : Bool :=
  !(r.lastSignIn == Value.str "Never logged in")

/-- Phase 1: `df[df['Last Sign In [READ ONLY]'] != 'Never logged in']`. -/
def phase1Filter (rows : List Row) : List Row :=
  rows.filter keepLoginRow

/-- Exclusion test of one row (`csv_email_processor.py:160-162`):
`df_filtered[email_column].str.lower().isin(exclusion_emails)`; a non-string
cell lowers to `NaN`, which `isin` reports as absent. -/
def exclMatches (es : Finset String) (r : Row) : Bool :=
  match r.email with
  | .str s => decide (lowerString s ∈ es)
  | .nonStr => false

/-- Phase 2 on a loaded exclusion set: drop the matching rows. -/
def applyExclusion (es : Finset String) (rows : List Row) : List Row :=
  rows.filter (fun r => !exclMatches es r)

/-- Phase 2 (`csv_email_processor.py:151-166`): skipped when no exclusion
file is supplied, and skipped when the loaded set is empty
(`if exclusion_emails:`). -/
def phase2Filter (excl : Option (Except Unit (List String))) (rows : List Row) :
    List Row :=
  match excl with
  | none => rows
  | some file =>
    if load_exclusion_file file = ∅ then rows
    else applyExclusion (load_exclusion_file file) rows

/-- The survival predicate of phase 2, as one per-row test: with no exclusion
file every row survives, otherwise a row survives iff `exclMatches` rejects
it against the loaded set (an empty loaded set keeps every row, so the
`if exclusion_emails:` skip of the source changes nothing). -/
def keepExclRow (excl : Option (Except Unit (List String))) (r : Row) : Bool :=
  match excl with
  | none => true
  | some file => !exclMatches (load_exclusion_file file) r

/-- The validation loop (`csv_email_processor.py:173-180`): append each valid
email to the output list, count each invalid one. -/
def validLoop (emails : List Value) : List Value × Nat :=
  emails.foldl
    (fun acc e =>
      if validate_email e then (acc.1 ++ [e], acc.2) else (acc.1, acc.2 + 1))
    ([], 0)

/-- The possible failure modes caught by the handler at
`csv_email_processor.py:205-207`. -/
inductive PipelineError where
  | readError
  | schemaError (missing : List String)
deriving DecidableEq

/-- The result of `process_csv`: the valid emails and inferred domain, or one
of the early exits. -/
inductive ProcResult where
  | ok (validEmails : List Value) (domain : String)
  | emptyPhase1
  | noValidEmails
  | caught (e : PipelineError)
deriving DecidableEq

/-- Embedding of `process_csv` (`csv_email_processor.py:125-207`): load,
validate the schema, phase-1 filter, optional exclusion filter, per-row email
validation, domain inference from the first valid email. -/
def process_csv (csv : Except Unit Table)
    (excl : Option (Except Unit (List String))) : ProcResult :=
  match csv with
  | .error _ => .caught .readError
  | .ok t =>
    if validate_csv_format t then
      let df1 := phase1Filter t.rows
      if df1.isEmpty then .emptyPhase1
      else
        let df2 := phase2Filter excl df1
        match validLoop (df2.map Row.email) with
        | ([], _) => .noValidEmails
        | (e :: es, _) => .ok (e :: es) (extract_domain e)
    else .caught (.schemaError (missingColumns t))

/-! ### Notices and the output file -/

/-- A message box shown to the user. -/
inductive Notice where
  | errorBox (title : String)
  | warningBox (title : String)
  | infoBox (title : String)
deriving DecidableEq

/-- An error box or a warning box is a user-visible alert. -/
def Notice.isAlert : Notice → Bool
  | .errorBox _ => true
  | .warningBox _ => true
  | .infoBox _ => false

/-- The message box attached to each non-ok result of `process_csv`
(`csv_email_processor.py:145-148`, `187-190`, `206`). -/
def ProcResult.notice : ProcResult → Option Notice
  | .ok _ _ => none
  | .emptyPhase1 => some (.warningBox "No Data")
  | .noValidEmails => some (.warningBox "No Valid Emails")
  | .caught _ => some (.errorBox "Error")

/-- The output file written by `save_output`: its directory, its name, the
single column header, and the data rows (`index=False`, so no index column). -/
structure OutputFile where
  dir : String
  filename : String
  header : String
  dataRows : List Value
deriving DecidableEq

/-- The number of lines of the rendered file: the header line plus one line
per data row. -/
def OutputFile.csvLineCount (o : OutputFile) : Nat :=
  1 + o.dataRows.length

/-- Embedding of `save_output` (`csv_email_processor.py:210-226`): the file
`{domain}-to-delete.csv` in the directory of the input file, one column
`primaryEmail` holding the emails. -/
def save_output (inputDir : String) (emails : List Value) (domain : String) :
    OutputFile :=
  ⟨inputDir, domain ++ "-to-delete.csv", "primaryEmail", emails⟩

/-- Embedding of `main` (`csv_email_processor.py:246-283`): run
`process_csv`; on success write the output when the location is writable
(an unwritable location makes `save_output` fail with an error box and no
file, `csv_email_processor.py:241-243`); on a non-ok result write nothing
and surface the notice of the result. -/
def main_run (inputDir : String) (csv : Except Unit Table)
    (excl : Option (Except Unit (List String))) (writable : Bool) :
    Option OutputFile × List Notice :=
  match process_csv csv excl with
  | .ok emails domain =>
    if writable then
      (some (save_output inputDir emails domain), [Notice.infoBox "Success"])
    else (none, [Notice.errorBox "Error"])
  | r => (none, r.notice.toList)

/-! ### Concrete tables used by the witnesses -/

/-- The scenario row `("a@x.com", "Never logged in")` of the spec. -/
def demoRowNever : Row := ⟨Value.str "a@x.com", Value.str "Never logged in"⟩

/-- The scenario row `("b@x.com", "2023-01-01")` of the spec. -/
def demoRowB : Row := ⟨Value.str "b@x.com", Value.str "2023-01-01"⟩

/-- The scenario row `("bad@@x", "2023-01-01")` of the spec. -/
def demoRowBad : Row := ⟨Value.str "bad@@x", Value.str "2023-01-01"⟩

/-- The scenario table of the spec, with both mandatory columns. -/
def demoTable : Table := ⟨requiredColumns, [demoRowNever, demoRowB, demoRowBad]⟩

/-- A table missing both mandatory columns. -/
def demoBadTable : Table := ⟨["foo"], []⟩

/-- A table whose valid emails span two distinct domains. -/
def demoMultiTable : Table :=
  ⟨requiredColumns,
    [⟨Value.str "b@x.com", Value.str "2023-01-01"⟩,
     ⟨Value.str "c@y.org", Value.str "2023-01-02"⟩]⟩

/-! ### Helper lemmas: character classes -/

lemma isDomainChar_kept {c : Char} (h : isDomainChar c = true) : isKeptChar c = true := by
  simp only [isDomainChar, Bool.or_eq_true, decide_eq_true_eq] at h
  simp only [isKeptChar, isWordChar, Bool.or_eq_true, decide_eq_true_eq]
  tauto

lemma isLocalChar_ne_at {c : Char} (h : isLocalChar c = true) : c ≠ '@' := by
  intro he
  subst he
  exact absurd h (by decide)

lemma isDomainChar_ne_at {c : Char} (h : isDomainChar c = true) : c ≠ '@' := by
  intro he
  subst he
  exact absurd h (by decide)

lemma isTldChar_domain {c : Char} (h : isTldChar c = true) : isDomainChar c = true := by
  simp only [isTldChar] at h
  simp [isDomainChar, h]

/-! ### Helper lemmas: generic list facts -/

lemma takeWhile_of_all {α : Type} (p : α → Bool) :
    ∀ l : List α, (∀ a ∈ l, p a = true) → l.takeWhile p = l := by
  intro l h
  induction l with
  | nil => rfl
  | cons x xs ih =>
    rw [List.takeWhile_cons, if_pos (h x (List.mem_cons_self x xs))]
    rw [ih fun a ha => h a (List.mem_cons_of_mem x ha)]

lemma dropWhile_ne_at (loc rest : List Char) (h : ∀ c ∈ loc, c ≠ '@') :
    List.dropWhile (fun c => c != '@') (loc ++ '@' :: rest) = '@' :: rest := by
  induction loc with
  | nil => simp [List.dropWhile_cons]
  | cons x xs ih =>
    rw [List.cons_append, List.dropWhile_cons,
      if_pos (by simp [h x (List.mem_cons_self x xs)])]
    exact ih fun c hc => h c (List.mem_cons_of_mem x hc)

lemma getLast?_decomp {α : Type} : ∀ (l : List α) (c : α),
    l.getLast? = some c → l = l.dropLast ++ [c] := by
  intro l
  induction l with
  | nil => intro c h; simp at h
  | cons x xs ih =>
    intro c h
    cases xs with
    | nil =>
      simp only [List.getLast?_singleton, Option.some.injEq] at h
      subst h
      rfl
    | cons y ys =>
      rw [List.getLast?_cons_cons] at h
      exact congrArg (x :: ·) (ih c h)

/-! ### Helper lemmas: the greedy matcher -/

lemma tryDots_props (drun : List Char) (hall : ∀ c ∈ drun, isDomainChar c = true) :
    ∀ (n : Nat) (m : List Char), tryDots drun n = some m →
      m ≠ [] ∧ (∀ c ∈ m, isDomainChar c = true) ∧ '.' ∈ m := by
  intro n
  induction n with
  | zero => intro m h; simp [tryDots] at h
  | succ i ih =>
    intro m h
    rw [tryDots] at h
    split at h
    · split at h
      · obtain rfl := Option.some.inj h
        refine ⟨by simp, ?_, by simp⟩
        intro c hc
        rcases List.mem_append.mp hc with h1 | h2
        · exact hall c (List.mem_of_mem_take h1)
        · rcases List.mem_cons.mp h2 with rfl | h3
          · decide
          · exact isTldChar_domain (List.mem_takeWhile_imp h3)
      · exact ih m h
    · exact ih m h

lemma matchDomainTail_props (cs m : List Char) (h : matchDomainTail cs = some m) :
    m ≠ [] ∧ (∀ c ∈ m, isDomainChar c = true) ∧ '.' ∈ m := by
  rw [matchDomainTail] at h
  exact tryDots_props _ (fun c hc => List.mem_takeWhile_imp hc) _ _ h

lemma matchesEmailCore_decomp (cs : List Char) (h : matchesEmailCore cs = true) :
    ∃ loc m, cs = loc ++ '@' :: m ∧ loc ≠ [] ∧ (∀ c ∈ loc, isLocalChar c = true) ∧
      m ≠ [] ∧ (∀ c ∈ m, isDomainChar c = true) ∧ '.' ∈ m := by
  simp only [matchesEmailCore] at h
  split at h
  · rename_i rest heq
    rw [Bool.and_eq_true] at h
    obtain ⟨h1, h2⟩ := h
    rw [beq_iff_eq] at h2
    obtain ⟨hm, hmall, hdot⟩ := matchDomainTail_props rest rest h2
    refine ⟨cs.takeWhile isLocalChar, rest, ?_, ?_, ?_, hm, hmall, hdot⟩
    · conv_lhs => rw [← List.takeWhile_append_dropWhile isLocalChar cs]
      rw [heq]
    · exact List.isEmpty_eq_false.mp (by simpa using h1)
    · exact fun c hc => List.mem_takeWhile_imp hc
  · exact absurd h (by simp)

lemma validate_str_decomp (s : String) (h : validate_email (Value.str s) = true) :
    ∃ loc m e, s.data = loc ++ '@' :: (m ++ e) ∧ loc ≠ [] ∧
      (∀ c ∈ loc, isLocalChar c = true) ∧ m ≠ [] ∧
      (∀ c ∈ m, isDomainChar c = true) ∧ '.' ∈ m ∧ (e = [] ∨ e = ['\n']) := by
  have h' : matchesPythonAnchored s.data = true := h
  rw [matchesPythonAnchored, Bool.or_eq_true] at h'
  rcases h' with h1 | h1
  · obtain ⟨loc, m, hcs, hl, hlall, hm, hmall, hdot⟩ := matchesEmailCore_decomp _ h1
    exact ⟨loc, m, [], by simpa using hcs, hl, hlall, hm, hmall, hdot, Or.inl rfl⟩
  · rw [Bool.and_eq_true] at h1
    obtain ⟨hlast, hcore⟩ := h1
    rw [beq_iff_eq] at hlast
    obtain ⟨loc, m, hcs, hl, hlall, hm, hmall, hdot⟩ := matchesEmailCore_decomp _ hcore
    refine ⟨loc, m, ['\n'], ?_, hl, hlall, hm, hmall, hdot, Or.inr rfl⟩
    rw [getLast?_decomp _ _ hlast, hcs]
    simp

/-! ### Helper lemmas: domain extraction on a decomposed valid email -/

lemma extract_domain_mk (l : List Char) :
    extract_domain (Value.str (String.mk l)) =
      if '@' ∈ l then
        String.mk (((l.dropWhile (fun c => c != '@')).tail.takeWhile
          (fun c => c != '@')).filter isKeptChar)
      else "unknown" := rfl

lemma specDomain_mk (l : List Char) :
    specDomainAfterFirstAt (String.mk l) =
      String.mk (((l.dropWhile (fun c => c != '@')).tail).filter isKeptChar) := rfl

lemma domain_tail_chars (loc m e : List Char)
    (hlall : ∀ c ∈ loc, isLocalChar c = true)
    (hmall : ∀ c ∈ m, isDomainChar c = true)
    (he : e = [] ∨ e = ['\n']) :
    ((loc ++ '@' :: (m ++ e)).dropWhile (fun c => c != '@')).tail = m ++ e := by
  rw [dropWhile_ne_at loc _ (fun c hc => isLocalChar_ne_at (hlall c hc))]
  rfl

lemma domain_filter_chars (m e : List Char)
    (hmall : ∀ c ∈ m, isDomainChar c = true)
    (he : e = [] ∨ e = ['\n']) :
    (m ++ e).filter isKeptChar = m := by
  rw [List.filter_append]
  have h3 : m.filter isKeptChar = m :=
    List.filter_eq_self.mpr fun a ha => isDomainChar_kept (hmall a ha)
  have h4 : e.filter isKeptChar = [] := by rcases he with rfl | rfl <;> rfl
  rw [h3, h4, List.append_nil]

lemma domain_no_at (m e : List Char)
    (hmall : ∀ c ∈ m, isDomainChar c = true)
    (he : e = [] ∨ e = ['\n']) :
    ∀ c ∈ m ++ e, (c != '@') = true := by
  intro c hc
  rcases List.mem_append.mp hc with h1 | h2
  · simp [isDomainChar_ne_at (hmall c h1)]
  · rcases he with rfl | rfl
    · simp at h2
    · rcases List.mem_singleton.mp h2 with rfl
      decide

lemma extract_domain_decomp (loc m e : List Char)
    (hlall : ∀ c ∈ loc, isLocalChar c = true)
    (hmall : ∀ c ∈ m, isDomainChar c = true)
    (he : e = [] ∨ e = ['\n']) :
    extract_domain (Value.str (String.mk (loc ++ '@' :: (m ++ e)))) = String.mk m := by
  rw [extract_domain_mk,
    if_pos (by exact List.mem_append.mpr (Or.inr (List.mem_cons_self _ _))),
    domain_tail_chars loc m e hlall hmall he,
    takeWhile_of_all _ _ (domain_no_at m e hmall he),
    domain_filter_chars m e hmall he]

lemma specDomain_decomp (loc m e : List Char)
    (hlall : ∀ c ∈ loc, isLocalChar c = true)
    (hmall : ∀ c ∈ m, isDomainChar c = true)
    (he : e = [] ∨ e = ['\n']) :
    specDomainAfterFirstAt (String.mk (loc ++ '@' :: (m ++ e))) = String.mk m := by
  rw [specDomain_mk, domain_tail_chars loc m e hlall hmall he,
    domain_filter_chars m e hmall he]

lemma count_at_decomp (loc m e : List Char)
    (hlall : ∀ c ∈ loc, isLocalChar c = true)
    (hmall : ∀ c ∈ m, isDomainChar c = true)
    (he : e = [] ∨ e = ['\n']) :
    (loc ++ '@' :: (m ++ e)).count '@' = 1 := by
  have hl0 : loc.count '@' = 0 :=
    List.count_eq_zero.mpr fun hin => isLocalChar_ne_at (hlall _ hin) rfl
  have hm0 : m.count '@' = 0 :=
    List.count_eq_zero.mpr fun hin => isDomainChar_ne_at (hmall _ hin) rfl
  have he0 : e.count '@' = 0 := by rcases he with rfl | rfl <;> decide
  simp [List.count_append, List.count_cons, hl0, hm0, he0]

/-! ### Helper lemmas: the search over a fully matching line -/

lemma findMatchAt_of_core (cs : List Char) (h : matchesEmailCore cs = true) :
    findMatchAt cs = some cs := by
  simp only [matchesEmailCore] at h
  split at h
  · rename_i rest heq
    rw [Bool.and_eq_true] at h
    obtain ⟨h1, h2⟩ := h
    rw [beq_iff_eq] at h2
    have hcs : cs.takeWhile isLocalChar ++ '@' :: rest = cs := by
      conv_rhs => rw [← List.takeWhile_append_dropWhile isLocalChar cs]
      rw [heq]
    have hne : (cs.takeWhile isLocalChar).isEmpty = false := by simpa using h1
    unfold findMatchAt
    rw [heq]
    simp [hne, h2, hcs]
  · exact absurd h (by simp)

lemma searchEmail_of_core (cs : List Char) (h : matchesEmailCore cs = true) :
    searchEmail cs = some cs := by
  cases cs with
  | nil => exact absurd h (by decide)
  | cons c rest =>
    rw [searchEmail, findMatchAt_of_core _ h]

/-! ### Helper lemmas: stripped lines -/

lemma head?_dropWhile {α : Type} (p : α → Bool) :
    ∀ (l : List α) (c : α) (rest : List α), l.dropWhile p = c :: rest → p c = false := by
  intro l
  induction l with
  | nil => intro c rest h; simp at h
  | cons x xs ih =>
    intro c rest h
    rw [List.dropWhile_cons] at h
    by_cases hx : p x = true
    · rw [if_pos hx] at h
      exact ih c rest h
    · rw [if_neg hx] at h
      injection h with h1 h2
      subst h1
      exact Bool.eq_false_iff.mpr hx

lemma stripChars_getLast_not_ws (cs : List Char) (c : Char)
    (h : (stripChars cs).getLast? = some c) : c.isWhitespace = false := by
  rw [stripChars, List.getLast?_reverse] at h
  cases hd : (cs.dropWhile Char.isWhitespace).reverse.dropWhile Char.isWhitespace with
  | nil => rw [hd] at h; exact absurd h (by simp)
  | cons x rest =>
    rw [hd] at h
    simp only [List.head?_cons, Option.some.injEq] at h
    subst h
    exact head?_dropWhile _ _ _ _ hd

/-! ### Helper lemmas: the exclusion-line parser and the loaded set -/

lemma lineEmail_of_search (raw : String) (m : List Char)
    (h : searchEmail (stripChars raw.data) = some m) :
    lineEmail raw = some (String.mk (lowerChars m)) := by
  have hne : (stripChars raw.data).isEmpty = false := by
    rw [List.isEmpty_eq_false]
    intro he
    rw [he] at h
    simp [searchEmail] at h
  simp only [lineEmail]
  rw [if_neg (by simp [hne]), h]

lemma lineEmail_of_valid (raw : String)
    (h : matchesPythonAnchored (stripChars raw.data) = true) :
    lineEmail raw = some (String.mk (lowerChars (stripChars raw.data))) := by
  have hcore : matchesEmailCore (stripChars raw.data) = true := by
    rw [matchesPythonAnchored, Bool.or_eq_true] at h
    rcases h with h | h
    · exact h
    · rw [Bool.and_eq_true] at h
      obtain ⟨hlast, -⟩ := h
      rw [beq_iff_eq] at hlast
      have := stripChars_getLast_not_ws raw.data '\n' hlast
      exact absurd this (by decide)
  exact lineEmail_of_search raw _ (searchEmail_of_core _ hcore)

lemma load_exclusion_aux (lines : List String) :
    ∀ acc : Finset String,
      lines.foldl
        (fun acc l =>
          match lineEmail l with
          | some e => insert e acc
          | none => acc)
        acc
      = acc ∪ (lines.filterMap lineEmail).toFinset := by
  induction lines with
  | nil => intro acc; simp
  | cons l ls ih =>
    intro acc
    rw [List.foldl_cons, List.filterMap_cons]
    cases hl : lineEmail l with
    | none =>
      simp only [hl]
      exact ih acc
    | some e =>
      simp only [hl, List.toFinset_cons]
      rw [ih (insert e acc), Finset.insert_union, Finset.union_insert]

lemma load_exclusion_eq (lines : List String) :
    load_exclusion_emails lines = (lines.filterMap lineEmail).toFinset := by
  rw [load_exclusion_emails, load_exclusion_aux lines ∅, Finset.empty_union]

lemma mem_load_of_lineEmail (lines : List String) (raw e : String)
    (hmem : raw ∈ lines) (h : lineEmail raw = some e) :
    e ∈ load_exclusion_emails lines := by
  rw [load_exclusion_eq, List.mem_toFinset, List.mem_filterMap]
  exact ⟨raw, hmem, h⟩

/-! ### Helper lemmas: the validation loop and the filters -/

lemma validLoop_aux (emails : List Value) :
    ∀ (acc : List Value) (n : Nat),
      emails.foldl
        (fun acc e =>
          if validate_email e then (acc.1 ++ [e], acc.2) else (acc.1, acc.2 + 1))
        (acc, n)
      = (acc ++ emails.filter (fun e => validate_email e),
         n + (emails.filter (fun e => !validate_email e)).length) := by
  induction emails with
  | nil => intro acc n; simp
  | cons e es ih =>
    intro acc n
    rw [List.foldl_cons]
    cases hv : validate_email e with
    | true =>
      simp only [hv, if_true]
      rw [ih (acc ++ [e]) n]
      simp [List.filter_cons, hv, List.append_assoc]
    | false =>
      simp only [hv, Bool.false_eq_true, if_false]
      rw [ih acc (n + 1)]
      simp [List.filter_cons, hv]
      omega

lemma validLoop_eq (emails : List Value) :
    validLoop emails = (emails.filter (fun e => validate_email e),
      (emails.filter (fun e => !validate_email e)).length) := by
  rw [validLoop, validLoop_aux emails [] 0]
  simp

lemma filter_map_comm {α β : Type} (f : α → β) (p : β → Bool) :
    ∀ l : List α, (l.map f).filter p = (l.filter (fun a => p (f a))).map f := by
  intro l
  induction l with
  | nil => rfl
  | cons x xs ih =>
    simp only [List.map_cons, List.filter_cons]
    cases hp : p (f x) with
    | true => simp [hp, ih]
    | false => simp [hp, ih]

lemma filter3 (rows : List Row) (p q v : Row → Bool) :
    ((rows.filter p).filter q).filter v = rows.filter (fun r => p r && q r && v r) := by
  rw [List.filter_filter, List.filter_filter]
  exact List.filter_congr fun x hx => by cases p x <;> cases q x <;> cases v x <;> rfl

lemma exclMatches_empty (r : Row) : exclMatches ∅ r = false := by
  cases r with
  | mk email last =>
    cases email with
    | str s => simp [exclMatches]
    | nonStr => rfl

lemma phase2_eq_filter (excl : Option (Except Unit (List String))) (rows : List Row) :
    phase2Filter excl rows = rows.filter (keepExclRow excl) := by
  cases excl with
  | none =>
    rw [phase2Filter]
    exact (List.filter_eq_self.mpr fun r hr => rfl).symm
  | some file =>
    rw [phase2Filter]
    by_cases hes : load_exclusion_file file = ∅
    · rw [if_pos hes]
      refine (List.filter_eq_self.mpr ?_).symm
      intro r hr
      simp [keepExclRow, hes, exclMatches_empty]
    · rw [if_neg hes]
      rfl

/-! ### Helper lemmas: the shape of a successful `process_csv` -/

lemma process_ok_elim (t : Table) (excl : Option (Except Unit (List String)))
    (emails : List Value) (dom : String)
    (h : process_csv (.ok t) excl = .ok emails dom) :
    validate_csv_format t = true ∧
    phase1Filter t.rows ≠ [] ∧
    emails = ((phase2Filter excl (phase1Filter t.rows)).map Row.email).filter
      (fun e => validate_email e) ∧
    ∃ e rest, emails = e :: rest ∧ dom = extract_domain e := by
  simp only [process_csv] at h
  split at h
  · split at h
    · exact absurd h (by simp)
    · rename_i hval hemp
      split at h
      · exact absurd h (by simp)
      · rename_i e es n heq
        injection h with h1 h2
        subst h1
        subst h2
        rw [validLoop_eq] at heq
        have hfil := congrArg Prod.fst heq
        refine ⟨hval, ?_, hfil.symm, e, es, rfl, rfl⟩
        rw [List.isEmpty_iff] at hemp
        exact hemp
  · exact absurd h (by simp)

lemma exclMatches_iff (es : Finset String) (r : Row) :
    exclMatches es r = true ↔
      ∃ s, r.email = Value.str s ∧ lowerString s ∈ es := by
  cases hr : r.email with
  | str s =>
    simp only [exclMatches, hr, decide_eq_true_eq]
    constructor
    · intro h
      exact ⟨s, rfl, h⟩
    · rintro ⟨s', hs, hmem⟩
      injection hs with hss
      subst hss
      exact hmem
  | nonStr => simp [exclMatches, hr]

lemma main_run_of_ok (dir : String) (csv : Except Unit Table)
    (excl : Option (Except Unit (List String))) (emails : List Value) (dom : String)
    (h : process_csv csv excl = ProcResult.ok emails dom) :
    main_run dir csv excl true =
      (some (save_output dir emails dom), [Notice.infoBox "Success"]) := by
  rw [main_run, h]
  rfl

lemma first_email_valid (t : Table) (excl : Option (Except Unit (List String)))
    (emails : List Value) (dom : String) (e : Value) (rest : List Value)
    (h : process_csv (.ok t) excl = .ok emails dom) (hcons : emails = e :: rest) :
    validate_email e = true := by
  obtain ⟨-, -, hfil, -⟩ := process_ok_elim t excl emails dom h
  have hmem : e ∈ emails := by rw [hcons]; exact List.mem_cons_self _ _
  rw [hfil] at hmem
  exact (List.mem_filter.mp hmem).2

/-! ## The claims -/

/-- Claim C1: a row of the loaded table survives the phase-1 login-status
filter iff the value of its `Last Sign In [READ ONLY]` field is not exactly
the string `"Never logged in"` (exact, case-sensitive comparison; a
non-string cell is never equal to it and is kept). -/
theorem c1_phase1_membership (rows : List Row) (r : Row) :
    r ∈ phase1Filter rows ↔
      r ∈ rows ∧ r.lastSignIn ≠ Value.str "Never logged in" := by
  rw [phase1Filter, List.mem_filter]
  refine and_congr_right fun _ => ?_
  rw [keepLoginRow, Bool.not_eq_true', beq_eq_false_iff_ne]

/-- Concrete instance of claim C1: the row that has logged in survives the
phase-1 filter of the scenario table. -/
theorem c1_phase1_membership_witness :
    demoRowB ∈ phase1Filter [demoRowNever, demoRowB] :=
  (c1_phase1_membership [demoRowNever, demoRowB] demoRowB).mpr
    ⟨by simp, by decide⟩

/-- Claim C2, counterexample: the validator accepts `"a@b.com\n"` although
the anchored pattern does not match that full value — Python `$` also
matches just before a trailing newline. -/
theorem c2_email_pattern_counterexample :
    validate_email (Value.str "a@b.com\n") = true ∧
      specFullAnchoredMatch "a@b.com\n" = false := by
  constructor <;> rfl

/-- Claim C2 (amended): the validator accepts exactly the strings matched by
the anchored pattern under Python `$` semantics — the pattern matches the
full value, or the full value minus one trailing newline.  Every rejected
value is excluded from the output and counted as invalid, and a rejection
never makes the run fail with a caught error. -/
theorem c2_email_validation :
    (∀ v : Value, validate_email v = true ↔
      ∃ s : String, v = Value.str s ∧
        (specFullAnchoredMatch s = true ∨
          (s.data.getLast? = some '\n' ∧
            specFullAnchoredMatch (String.mk s.data.dropLast) = true))) ∧
    (∀ emails : List Value,
      validLoop emails = (emails.filter (fun e => validate_email e),
        (emails.filter (fun e => !validate_email e)).length)) ∧
    (∀ (t : Table) (excl : Option (Except Unit (List String)))
        (emails : List Value) (dom : String),
      process_csv (Except.ok t) excl = ProcResult.ok emails dom →
        ∀ e ∈ emails, validate_email e = true) ∧
    (∀ (t : Table) (excl : Option (Except Unit (List String)))
        (err : PipelineError),
      validate_csv_format t = true →
        process_csv (Except.ok t) excl ≠ ProcResult.caught err) := by
  refine ⟨?_, validLoop_eq, ?_, ?_⟩
  · intro v
    cases v with
    | nonStr => simp [validate_email]
    | str s =>
      constructor
      · intro h
        have h' : matchesPythonAnchored s.data = true := h
        rw [matchesPythonAnchored, Bool.or_eq_true] at h'
        refine ⟨s, rfl, ?_⟩
        rcases h' with h1 | h1
        · exact Or.inl h1
        · rw [Bool.and_eq_true, beq_iff_eq] at h1
          exact Or.inr h1
      · rintro ⟨s', hs, h⟩
        injection hs with hss
        subst hss
        show matchesPythonAnchored s.data = true
        rw [matchesPythonAnchored, Bool.or_eq_true]
        rcases h with h1 | ⟨h1, h2⟩
        · exact Or.inl h1
        · refine Or.inr ?_
          rw [Bool.and_eq_true, beq_iff_eq]
          exact ⟨h1, h2⟩
  · intro t excl emails dom h e he
    obtain ⟨-, -, hfil, -⟩ := process_ok_elim t excl emails dom h
    rw [hfil] at he
    exact (List.mem_filter.mp he).2
  · intro t excl err hval hcon
    simp only [process_csv, hval, if_true] at hcon
    split at hcon
    · exact absurd hcon (by simp)
    · split at hcon
      · exact absurd hcon (by simp)
      · exact absurd hcon (by simp)

/-- Concrete instance of claim C2: the first email of the scenario output
was indeed accepted by the validator. -/
theorem c2_email_validation_witness :
    validate_email (Value.str "b@x.com") = true :=
  c2_email_validation.2.2.1 demoTable none [Value.str "b@x.com"] "x.com" (by rfl)
    (Value.str "b@x.com") (by simp)

/-- Claim C3: a phase-1 survivor passes the exclusion filter iff its
lower-cased email field is not a member of the loaded set (a non-string
email field never matches); every email whose lower-casing is in the set is
absent from the final output; and supplying no exclusion file drops no row. -/
theorem c3_exclusion_filter :
    (∀ (lines : List String) (rows : List Row) (r : Row),
      r ∈ phase2Filter (some (Except.ok lines)) rows ↔
        r ∈ rows ∧ ¬ ∃ s : String, r.email = Value.str s ∧
          lowerString s ∈ load_exclusion_emails lines) ∧
    (∀ (t : Table) (lines : List String) (emails : List Value) (dom : String),
      process_csv (Except.ok t) (some (Except.ok lines)) = ProcResult.ok emails dom →
        ∀ s : String, Value.str s ∈ emails →
          lowerString s ∉ load_exclusion_emails lines) ∧
    (∀ rows : List Row, phase2Filter none rows = rows) := by
  refine ⟨?_, ?_, fun rows => rfl⟩
  · intro lines rows r
    rw [phase2_eq_filter, List.mem_filter]
    refine and_congr_right fun _ => ?_
    rw [show keepExclRow (some (Except.ok lines)) r
      = !exclMatches (load_exclusion_emails lines) r from rfl]
    rw [Bool.not_eq_true']
    constructor
    · intro h hex
      rw [(exclMatches_iff _ _).mpr hex] at h
      cases h
    · intro h
      cases hb : exclMatches (load_exclusion_emails lines) r
      · rfl
      · exact absurd ((exclMatches_iff _ _).mp hb) h
  · intro t lines emails dom h s hs hmem
    obtain ⟨-, -, hfil, -⟩ := process_ok_elim t (some (Except.ok lines)) emails dom h
    rw [hfil] at hs
    obtain ⟨hs1, -⟩ := List.mem_filter.mp hs
    obtain ⟨r, hr, hre⟩ := List.mem_map.mp hs1
    rw [phase2_eq_filter, List.mem_filter] at hr
    obtain ⟨-, hkeep⟩ := hr
    have hmt : exclMatches (load_exclusion_emails lines) r = true :=
      (exclMatches_iff _ _).mpr ⟨s, hre, hmem⟩
    rw [show keepExclRow (some (Except.ok lines)) r
      = !exclMatches (load_exclusion_emails lines) r from rfl, hmt] at hkeep
    cases hkeep

/-- Concrete instance of claim C3: a row whose email is listed in the
exclusion file does not survive phase 2. -/
theorem c3_exclusion_filter_witness :
    demoRowB ∉ phase2Filter (some (Except.ok ["b@x.com"])) [demoRowB] := by
  intro hmem
  exact ((c3_exclusion_filter.1 ["b@x.com"] [demoRowB] demoRowB).mp hmem).2
    ⟨"b@x.com", rfl, by decide⟩

/-- Claim C4: every aborting run — missing mandatory column, zero phase-1
survivors, or zero valid emails after validation — creates no output file
and emits a user-visible error or warning box. -/
theorem c4_abort_no_output (dir : String) (t : Table)
    (excl : Option (Except Unit (List String))) (w : Bool)
    (h : validate_csv_format t = false ∨ phase1Filter t.rows = [] ∨
      ((phase2Filter excl (phase1Filter t.rows)).map Row.email).filter
        (fun e => validate_email e) = []) :
    (main_run dir (Except.ok t) excl w).1 = none ∧
      ∃ n ∈ (main_run dir (Except.ok t) excl w).2, n.isAlert = true := by
  cases hp : process_csv (Except.ok t) excl with
  | ok emails dom =>
    obtain ⟨hval, hne, hfil, e, rest, hcons, -⟩ := process_ok_elim t excl emails dom hp
    rcases h with h | h | h
    · rw [hval] at h
      cases h
    · exact absurd h hne
    · rw [← hfil] at h
      exact absurd (hcons.symm.trans h) (by simp)
  | emptyPhase1 =>
    have hm : main_run dir (Except.ok t) excl w =
        (none, [Notice.warningBox "No Data"]) := by
      rw [main_run, hp]
      rfl
    rw [hm]
    exact ⟨rfl, Notice.warningBox "No Data", by simp, rfl⟩
  | noValidEmails =>
    have hm : main_run dir (Except.ok t) excl w =
        (none, [Notice.warningBox "No Valid Emails"]) := by
      rw [main_run, hp]
      rfl
    rw [hm]
    exact ⟨rfl, Notice.warningBox "No Valid Emails", by simp, rfl⟩
  | caught err =>
    have hm : main_run dir (Except.ok t) excl w =
        (none, [Notice.errorBox "Error"]) := by
      rw [main_run, hp]
      rfl
    rw [hm]
    exact ⟨rfl, Notice.errorBox "Error", by simp, rfl⟩

/-- Concrete instance of claim C4: a table missing the mandatory columns
produces no output file and an alert. -/
theorem c4_abort_no_output_witness :
    (main_run "d" (Except.ok demoBadTable) none true).1 = none ∧
      ∃ n ∈ (main_run "d" (Except.ok demoBadTable) none true).2, n.isAlert = true :=
  c4_abort_no_output "d" demoBadTable none true (Or.inl (by rfl))

lemma extract_eq_spec_of_valid (s : String)
    (h : validate_email (Value.str s) = true) :
    extract_domain (Value.str s) = specDomainAfterFirstAt s := by
  obtain ⟨loc, m, e, hdata, hl, hlall, hm, hmall, hdot, he⟩ := validate_str_decomp s h
  obtain ⟨sd⟩ := s
  replace hdata : sd = loc ++ '@' :: (m ++ e) := hdata
  subst hdata
  rw [extract_domain_decomp loc m e hlall hmall he,
    specDomain_decomp loc m e hlall hmall he]

lemma extract_domain_props_of_valid (s : String)
    (h : validate_email (Value.str s) = true) :
    s.data.count '@' = 1 ∧ extract_domain (Value.str s) ≠ "" ∧
    '.' ∈ (extract_domain (Value.str s)).data ∧
    ∀ c ∈ (extract_domain (Value.str s)).data, isKeptChar c = true := by
  obtain ⟨loc, m, e, hdata, hl, hlall, hm, hmall, hdot, he⟩ := validate_str_decomp s h
  obtain ⟨sd⟩ := s
  replace hdata : sd = loc ++ '@' :: (m ++ e) := hdata
  subst hdata
  rw [extract_domain_decomp loc m e hlall hmall he]
  refine ⟨count_at_decomp loc m e hlall hmall he, ?_, hdot, ?_⟩
  · intro hemp
    exact hm (congrArg String.data hemp)
  · intro c hc
    exact isDomainChar_kept (hmall c hc)

/-- Claim C5: the output email sequence is the sequence of email-field values
of the input rows restricted to the rows surviving all three passes — the
login-status filter, the exclusion filter and the validation — in the
original input row order. -/
theorem c5_filter_stability (t : Table) (excl : Option (Except Unit (List String)))
    (emails : List Value) (dom : String)
    (h : process_csv (Except.ok t) excl = ProcResult.ok emails dom) :
    emails = (t.rows.filter (fun r =>
      keepLoginRow r && keepExclRow excl r && validate_email r.email)).map
        Row.email := by
  obtain ⟨-, -, hfil, -⟩ := process_ok_elim t excl emails dom h
  rw [hfil, filter_map_comm, phase2_eq_filter, phase1Filter, filter3]

/-- Concrete instance of claim C5 on the scenario table. -/
theorem c5_filter_stability_witness :
    [Value.str "b@x.com"] = (demoTable.rows.filter (fun r =>
      keepLoginRow r && keepExclRow none r && validate_email r.email)).map
        Row.email :=
  c5_filter_stability demoTable none [Value.str "b@x.com"] "x.com" (by rfl)

/-- Claim C6: every successful run is saved in the directory of the input
file under the name `D-to-delete.csv`, where `D` is the domain of the first
valid email — the substring after its first `@` with every character outside
`[A-Za-z0-9._-]` stripped; further valid emails (even of other domains)
never change the name, and a multi-domain list still succeeds. -/
theorem c6_output_naming (dir : String) (t : Table)
    (excl : Option (Except Unit (List String)))
    (emails : List Value) (dom : String)
    (h : process_csv (Except.ok t) excl = ProcResult.ok emails dom) :
    ∃ s rest, emails = Value.str s :: rest ∧
      (main_run dir (Except.ok t) excl true).1 =
        some ⟨dir, specDomainAfterFirstAt s ++ "-to-delete.csv",
          "primaryEmail", emails⟩ := by
  obtain ⟨-, -, hfil, e, rest, hcons, hdom⟩ := process_ok_elim t excl emails dom h
  have hval := first_email_valid t excl emails dom e rest h hcons
  cases e with
  | nonStr => exact absurd hval (by decide)
  | str s =>
    refine ⟨s, rest, hcons, ?_⟩
    rw [main_run_of_ok dir (Except.ok t) excl emails dom h]
    show some (save_output dir emails dom) = _
    rw [hdom, extract_eq_spec_of_valid s hval]
    rfl

/-- Concrete instance of claim C6 on a table whose valid emails span two
domains: the run succeeds and the file is named after the first domain. -/
theorem c6_output_naming_witness :
    ∃ s rest, [Value.str "b@x.com", Value.str "c@y.org"] = Value.str s :: rest ∧
      (main_run "d" (Except.ok demoMultiTable) none true).1 =
        some ⟨"d", specDomainAfterFirstAt s ++ "-to-delete.csv", "primaryEmail",
          [Value.str "b@x.com", Value.str "c@y.org"]⟩ :=
  c6_output_naming "d" demoMultiTable none
    [Value.str "b@x.com", Value.str "c@y.org"] "x.com" (by rfl)

/-- Claim C7: writing N valid emails (N at least one) produces a table of one
header row whose single column is `primaryEmail` plus exactly N data rows,
with no index column (the output structure has the one column only). -/
theorem c7_output_shape (dir : String) (emails : List Value) (dom : String)
    (h : emails ≠ []) :
    (save_output dir emails dom).header = "primaryEmail" ∧
    (save_output dir emails dom).dataRows.length = emails.length ∧
    (save_output dir emails dom).csvLineCount = emails.length + 1 := by
  refine ⟨rfl, rfl, ?_⟩
  show 1 + emails.length = emails.length + 1
  omega

/-- Concrete instance of claim C7 for a one-email output. -/
theorem c7_output_shape_witness :
    (save_output "d" [Value.str "b@x.com"] "x.com").header = "primaryEmail" ∧
    (save_output "d" [Value.str "b@x.com"] "x.com").dataRows.length =
      [Value.str "b@x.com"].length ∧
    (save_output "d" [Value.str "b@x.com"] "x.com").csvLineCount =
      [Value.str "b@x.com"].length + 1 :=
  c7_output_shape "d" [Value.str "b@x.com"] "x.com" (by simp)

/-- Claim C8: the exclusion set is built line by line — a line containing an
embedded email contributes the searched substring lower-cased, a line that
is itself exactly a valid email contributes the whole (stripped) line
lower-cased — and it is a set: the order of the lines is irrelevant and
duplicates collapse. -/
theorem c8_exclusion_set :
    (∀ (lines : List String) (raw : String) (m : List Char),
      raw ∈ lines → searchEmail (stripChars raw.data) = some m →
        String.mk (lowerChars m) ∈ load_exclusion_emails lines) ∧
    (∀ (lines : List String) (raw : String),
      raw ∈ lines → matchesPythonAnchored (stripChars raw.data) = true →
        String.mk (lowerChars (stripChars raw.data)) ∈ load_exclusion_emails lines) ∧
    (∀ l1 l2 : List String, l1.Perm l2 →
      load_exclusion_emails l1 = load_exclusion_emails l2) ∧
    (∀ (l : String) (ls : List String),
      load_exclusion_emails (l :: l :: ls) = load_exclusion_emails (l :: ls)) := by
  refine ⟨?_, ?_, ?_, ?_⟩
  · intro lines raw m hmem hs
    exact mem_load_of_lineEmail lines raw _ hmem (lineEmail_of_search raw m hs)
  · intro lines raw hmem hv
    exact mem_load_of_lineEmail lines raw _ hmem (lineEmail_of_valid raw hv)
  · intro l1 l2 hperm
    rw [load_exclusion_eq, load_exclusion_eq]
    exact List.toFinset_eq_of_perm _ _ (hperm.filterMap lineEmail)
  · intro l ls
    rw [load_exclusion_eq, load_exclusion_eq]
    cases hl : lineEmail l with
    | none => simp [List.filterMap_cons, hl]
    | some e => simp [List.filterMap_cons, hl, List.toFinset_cons, Finset.insert_idem]

/-- Concrete instance of claim C8: the free-text scenario line contributes
the embedded address `c@x.com`. -/
theorem c8_exclusion_set_witness :
    String.mk (lowerChars "c@x.com".data) ∈
      load_exclusion_emails ["Contact: c@x.com please remove"] :=
  c8_exclusion_set.1 ["Contact: c@x.com please remove"]
    "Contact: c@x.com please remove" "c@x.com".data (by simp) (by rfl)

/-- Claim C9, counterexample: an unreadable exclusion file does not abort the
run — with a good input table the output file is still produced and a
success box shown, so the claim that it aborts with no output is false. -/
theorem c9_io_counterexample :
    main_run "d" (Except.ok demoTable) (some (Except.error ())) true =
      (some ⟨"d", "x.com-to-delete.csv", "primaryEmail", [Value.str "b@x.com"]⟩,
        [Notice.infoBox "Success"]) := by rfl

/-- Claim C9 (amended): an unreadable input table or an unwritable output
location aborts the run with a user-visible error box and no output file; an
unreadable exclusion file is non-fatal — the failure is only logged and the
run behaves exactly as if no exclusion file had been supplied. -/
theorem c9_io_failures :
    (∀ (dir : String) (excl : Option (Except Unit (List String))) (w : Bool),
      main_run dir (Except.error ()) excl w = (none, [Notice.errorBox "Error"])) ∧
    (∀ (dir : String) (csv : Except Unit Table)
        (excl : Option (Except Unit (List String))),
      (main_run dir csv excl false).1 = none) ∧
    (∀ (dir : String) (csv : Except Unit Table)
        (excl : Option (Except Unit (List String)))
        (emails : List Value) (dom : String),
      process_csv csv excl = ProcResult.ok emails dom →
        main_run dir csv excl false = (none, [Notice.errorBox "Error"])) ∧
    (∀ (dir : String) (csv : Except Unit Table) (w : Bool),
      main_run dir csv (some (Except.error ())) w = main_run dir csv none w) := by
  refine ⟨fun dir excl w => rfl, ?_, ?_, ?_⟩
  · intro dir csv excl
    cases hp : process_csv csv excl <;> simp [main_run, hp]
  · intro dir csv excl emails dom h
    rw [main_run, h]
    rfl
  · intro dir csv w
    have hp : process_csv csv (some (Except.error ())) = process_csv csv none := by
      cases csv with
      | error u => rfl
      | ok t =>
        simp only [process_csv]
        have h2 : phase2Filter (some (Except.error ())) = phase2Filter none := by
          funext rows
          rw [phase2_eq_filter, phase2_eq_filter]
          exact List.filter_congr fun r hr => by
            simp [keepExclRow, load_exclusion_file, exclMatches_empty]
        rw [h2]
    rw [main_run, main_run, hp]

/-- Concrete instance of claim C9: with an unwritable output location the
scenario run produces no file and an error box. -/
theorem c9_io_failures_witness :
    main_run "d" (Except.ok demoTable) none false =
      (none, [Notice.errorBox "Error"]) :=
  c9_io_failures.2.2.1 "d" (Except.ok demoTable) none
    [Value.str "b@x.com"] "x.com" (by rfl)

/-- Claim C10: every value the validator accepts is a string with exactly one
`@`; `extract_domain` never takes its `unknown` fallback on it, returning a
non-empty string of characters in `[A-Za-z0-9._-]`; hence no successful run
is ever saved as `unknown-to-delete.csv`. -/
theorem c10_safe_domain :
    (∀ v : Value, validate_email v = true →
      ∃ s : String, v = Value.str s ∧ s.data.count '@' = 1 ∧
        extract_domain v ≠ "" ∧ extract_domain v ≠ "unknown" ∧
        ∀ c ∈ (extract_domain v).data, isKeptChar c = true) ∧
    (∀ (dir : String) (t : Table) (excl : Option (Except Unit (List String)))
        (out : OutputFile) (ns : List Notice),
      main_run dir (Except.ok t) excl true = (some out, ns) →
        out.filename ≠ "unknown-to-delete.csv") := by
  constructor
  · intro v hv
    cases v with
    | nonStr => exact absurd hv (by decide)
    | str s =>
      obtain ⟨hcount, hne, hdot, hkept⟩ := extract_domain_props_of_valid s hv
      refine ⟨s, rfl, hcount, hne, ?_, hkept⟩
      intro hunk
      rw [hunk] at hdot
      exact absurd hdot (by decide)
  · intro dir t excl out ns hm hname
    cases hp : process_csv (Except.ok t) excl with
    | ok emails dom =>
      rw [main_run_of_ok dir _ excl emails dom hp] at hm
      have h1 : save_output dir emails dom = out :=
        Option.some.inj (congrArg Prod.fst hm)
      obtain ⟨-, -, hfil, e, rest, hcons, hdom⟩ := process_ok_elim t excl emails dom hp
      have hval := first_email_valid t excl emails dom e rest hp hcons
      cases e with
      | nonStr => exact absurd hval (by decide)
      | str s =>
        obtain ⟨-, -, hdot, -⟩ := extract_domain_props_of_valid s hval
        rw [← h1] at hname
        have hname' : dom ++ "-to-delete.csv" = "unknown-to-delete.csv" := hname
        rw [hdom] at hname'
        have hdata : (extract_domain (Value.str s)).data ++ "-to-delete.csv".data
            = "unknown".data ++ "-to-delete.csv".data := by
          have h2 := congrArg String.data hname'
          rw [String.data_append] at h2
          exact h2.trans (by rfl)
        have hpre := (List.append_inj' hdata rfl).1
        rw [hpre] at hdot
        exact absurd hdot (by decide)
    | emptyPhase1 =>
      rw [main_run, hp] at hm
      exact Option.noConfusion (congrArg Prod.fst hm)
    | noValidEmails =>
      rw [main_run, hp] at hm
      exact Option.noConfusion (congrArg Prod.fst hm)
    | caught err =>
      rw [main_run, hp] at hm
      exact Option.noConfusion (congrArg Prod.fst hm)

/-- Concrete instance of claim C10 at the scenario email. -/
theorem c10_safe_domain_witness :
    ∃ s : String, Value.str "b@x.com" = Value.str s ∧ s.data.count '@' = 1 ∧
      extract_domain (Value.str "b@x.com") ≠ "" ∧
      extract_domain (Value.str "b@x.com") ≠ "unknown" ∧
      ∀ c ∈ (extract_domain (Value.str "b@x.com")).data, isKeptChar c = true :=
  c10_safe_domain.1 (Value.str "b@x.com") (by rfl)

end CsvEmail
